import Mathlib

/-!
Verification of torchensemble adversarial training (Ensemble-Pytorch).

Shallow embedding of `src/torchensemble/adversarial_training.py` and
`src/torchensemble/_base.py`.  Tensors are modelled as flat lists of
rationals (softmax, which genuinely needs `exp`, uses `ℝ`); the fallible
Python functions return `Except`; the orchestration of `fit` is embedded as
explicit state passing, with the externally supplied collaborators (base
estimator construction, the per-batch torch training step, the validation
metric) abstracted as function parameters, exactly as the spec lists them
as out-of-scope external capabilities.
-/

set_option autoImplicit false

deriving instance DecidableEq for Except

/-! ## Adversarial sample generator: `_get_fgsm_samples` (lines 149-165) -/

/-- Error raised by `_get_fgsm_samples`: the `ValueError` at line 160 carries
the observed batch extrema (formatted into its message); an empty tensor makes
`torch.min` itself fail. -/
inductive FgsmError where
  | rangeError (observed_min observed_max : ℚ)
  | emptyInput
  deriving DecidableEq

/-- Model of `torch.min` over a flattened tensor (`none` on the empty tensor). -/
def tmin : List ℚ → Option ℚ
  | [] => none
  | x :: xs =>
    match tmin xs with
    | none => some x
    | some m => some (min x m)

/-- Model of `torch.max` over a flattened tensor (`none` on the empty tensor). -/
def tmax : List ℚ → Option ℚ
  | [] => none
  | x :: xs =>
    match tmax xs with
    | none => some x
    | some m => some (max x m)

/-- Model of `Tensor.sign()` elementwise on one value. -/
def qsign (x : ℚ) : ℚ := if 0 < x then 1 else if x < 0 then -1 else 0

/-- Model of `torch.clamp(x, 0, 1)` on one value. -/
def clamp01 (x : ℚ) : ℚ := min (max x 0) 1

/-- Embedding of `_get_fgsm_samples(sample, epsilon, sample_grad)`
(adversarial_training.py lines 149-165): check
`0 <= min(sample) < max(sample) <= 1`, raising `ValueError` with the observed
extrema otherwise, then return `clamp(sample + epsilon * sample_grad.sign(), 0, 1)`. -/
def get_fgsm_samples (sample : List ℚ) (epsilon : ℚ) (sample_grad : List ℚ) :
    Except FgsmError (List ℚ) :=
  match tmin sample, tmax sample with
  | some min_value, some max_value =>
    if 0 ≤ min_value ∧ min_value < max_value ∧ max_value ≤ 1 then
      Except.ok (List.zipWith (fun s g => clamp01 (s + epsilon * qsign g)) sample sample_grad)
    else
      Except.error (FgsmError.rangeError min_value max_value)
  | _, _ => Except.error FgsmError.emptyInput

theorem tmin_cons_none (x : ℚ) (xs : List ℚ) (h : tmin xs = none) :
    tmin (x :: xs) = some x := by simp [tmin, h]

theorem tmin_cons_some (x : ℚ) (xs : List ℚ) (m : ℚ) (h : tmin xs = some m) :
    tmin (x :: xs) = some (min x m) := by simp [tmin, h]

theorem tmax_cons_none (x : ℚ) (xs : List ℚ) (h : tmax xs = none) :
    tmax (x :: xs) = some x := by simp [tmax, h]

theorem tmax_cons_some (x : ℚ) (xs : List ℚ) (m : ℚ) (h : tmax xs = some m) :
    tmax (x :: xs) = some (max x m) := by simp [tmax, h]

theorem tmin_cons_isSome (x : ℚ) (xs : List ℚ) : ∃ m, tmin (x :: xs) = some m := by
  cases has : tmin xs with
  | none => exact ⟨x, tmin_cons_none x xs has⟩
  | some m => exact ⟨min x m, tmin_cons_some x xs m has⟩

theorem tmax_cons_isSome (x : ℚ) (xs : List ℚ) : ∃ m, tmax (x :: xs) = some m := by
  cases has : tmax xs with
  | none => exact ⟨x, tmax_cons_none x xs has⟩
  | some m => exact ⟨max x m, tmax_cons_some x xs m has⟩

theorem tmin_mem : ∀ (l : List ℚ) (m : ℚ), tmin l = some m → m ∈ l := by
  intro l
  induction l with
  | nil => intro m h; cases h
  | cons x xs ih =>
    intro m h
    cases hxs : tmin xs with
    | none =>
      rw [tmin_cons_none x xs hxs] at h
      cases h
      exact List.mem_cons_self x xs
    | some m' =>
      rw [tmin_cons_some x xs m' hxs] at h
      cases h
      rcases min_choice x m' with hc | hc
      · rw [hc]; exact List.mem_cons_self x xs
      · rw [hc]; exact List.mem_cons_of_mem x (ih m' hxs)

theorem tmin_le : ∀ (l : List ℚ) (m : ℚ), tmin l = some m → ∀ y ∈ l, m ≤ y := by
  intro l
  induction l with
  | nil => intro m h; cases h
  | cons x xs ih =>
    intro m h y hy
    cases hxs : tmin xs with
    | none =>
      rw [tmin_cons_none x xs hxs] at h
      cases h
      rcases List.mem_cons.mp hy with rfl | hy'
      · exact le_refl _
      · exfalso
        cases xs with
        | nil => cases hy'
        | cons a as =>
          rcases tmin_cons_isSome a as with ⟨mm, hmm⟩
          rw [hmm] at hxs
          cases hxs
    | some m' =>
      rw [tmin_cons_some x xs m' hxs] at h
      cases h
      rcases List.mem_cons.mp hy with rfl | hy'
      · exact min_le_left _ _
      · exact le_trans (min_le_right _ _) (ih m' hxs y hy')

theorem tmax_mem : ∀ (l : List ℚ) (m : ℚ), tmax l = some m → m ∈ l := by
  intro l
  induction l with
  | nil => intro m h; cases h
  | cons x xs ih =>
    intro m h
    cases hxs : tmax xs with
    | none =>
      rw [tmax_cons_none x xs hxs] at h
      cases h
      exact List.mem_cons_self x xs
    | some m' =>
      rw [tmax_cons_some x xs m' hxs] at h
      cases h
      rcases max_choice x m' with hc | hc
      · rw [hc]; exact List.mem_cons_self x xs
      · rw [hc]; exact List.mem_cons_of_mem x (ih m' hxs)

theorem tmax_ge : ∀ (l : List ℚ) (m : ℚ), tmax l = some m → ∀ y ∈ l, y ≤ m := by
  intro l
  induction l with
  | nil => intro m h; cases h
  | cons x xs ih =>
    intro m h y hy
    cases hxs : tmax xs with
    | none =>
      rw [tmax_cons_none x xs hxs] at h
      cases h
      rcases List.mem_cons.mp hy with rfl | hy'
      · exact le_refl _
      · exfalso
        cases xs with
        | nil => cases hy'
        | cons a as =>
          rcases tmax_cons_isSome a as with ⟨mm, hmm⟩
          rw [hmm] at hxs
          cases hxs
    | some m' =>
      rw [tmax_cons_some x xs m' hxs] at h
      cases h
      rcases List.mem_cons.mp hy with rfl | hy'
      · exact le_max_left _ _
      · exact le_trans (ih m' hxs y hy') (le_max_right _ _)

theorem tmin_isSome_of_mem (l : List ℚ) (x : ℚ) (hx : x ∈ l) :
    ∃ m, tmin l = some m := by
  cases l with
  | nil => cases hx
  | cons a as => exact tmin_cons_isSome a as

theorem tmax_isSome_of_mem (l : List ℚ) (x : ℚ) (hx : x ∈ l) :
    ∃ m, tmax l = some m := by
  cases l with
  | nil => cases hx
  | cons a as => exact tmax_cons_isSome a as

theorem clamp01_nonneg (x : ℚ) : 0 ≤ clamp01 x :=
  le_min (le_max_right x 0) zero_le_one

theorem clamp01_le_one (x : ℚ) : clamp01 x ≤ 1 := min_le_right _ _

theorem abs_mul_qsign_le (epsilon g : ℚ) (h : 0 ≤ epsilon) :
    |epsilon * qsign g| ≤ epsilon := by
  unfold qsign
  split_ifs with h1 h2
  · rw [mul_one, abs_of_nonneg h]
  · rw [mul_neg_one, abs_neg, abs_of_nonneg h]
  · rw [mul_zero, abs_zero]; exact h

theorem abs_clamp01_sub_le (s d epsilon : ℚ) (hs0 : 0 ≤ s) (hs1 : s ≤ 1)
    (hd : |d| ≤ epsilon) : |clamp01 (s + d) - s| ≤ epsilon := by
  have hε : 0 ≤ epsilon := le_trans (abs_nonneg d) hd
  rw [abs_le] at hd
  rw [abs_le]
  unfold clamp01
  constructor
  · have h1 : s - epsilon ≤ max (s + d) 0 :=
      le_trans (by linarith [hd.1]) (le_max_left (s + d) 0)
    have h2 : s - epsilon ≤ 1 := by linarith
    have := le_min h1 h2
    linarith
  · have h1 : max (s + d) 0 ≤ s + epsilon := max_le (by linarith [hd.2]) (by linarith)
    have := le_trans (min_le_left (max (s + d) 0) 1) h1
    linarith

/-- When the range check passes, the result of `get_fgsm_samples` is the
clamped perturbation of the whole batch. -/
theorem get_fgsm_samples_ok (sample sample_grad : List ℚ) (epsilon mn mx : ℚ)
    (hmn : tmin sample = some mn) (hmx : tmax sample = some mx)
    (hcheck : 0 ≤ mn ∧ mn < mx ∧ mx ≤ 1) :
    get_fgsm_samples sample epsilon sample_grad =
      Except.ok (List.zipWith (fun s g => clamp01 (s + epsilon * qsign g))
        sample sample_grad) := by
  unfold get_fgsm_samples
  rw [hmn, hmx]
  simp only [if_pos hcheck]

/-- When the range check fails, `get_fgsm_samples` raises with the observed
extrema. -/
theorem get_fgsm_samples_error (sample sample_grad : List ℚ) (epsilon mn mx : ℚ)
    (hmn : tmin sample = some mn) (hmx : tmax sample = some mx)
    (hcheck : ¬(0 ≤ mn ∧ mn < mx ∧ mx ≤ 1)) :
    get_fgsm_samples sample epsilon sample_grad =
      Except.error (FgsmError.rangeError mn mx) := by
  unfold get_fgsm_samples
  rw [hmn, hmx]
  simp only [if_neg hcheck]

/-- C4: the claim quantifies over every batch with values in `[0,1]`, but the
range check at line 156 demands `min < max` strictly, so the all-zeros batch
`[0, 0]` (values in `[0,1]`) raises `ValueError` instead of returning the
clamped perturbation the claim promises. -/
theorem C4_counterexample_constant_batch :
    get_fgsm_samples [0, 0] 1 [1, 1] = Except.error (FgsmError.rangeError 0 0) ∧
    get_fgsm_samples [0, 0] 1 [1, 1] ≠
      Except.ok (List.zipWith (fun s g => clamp01 (s + 1 * qsign g)) [0, 0] [1, 1]) := by
  refine ⟨by decide, ?_⟩
  intro h
  rw [show get_fgsm_samples [0, 0] 1 [1, 1]
      = Except.error (FgsmError.rangeError 0 0) from by decide] at h
  cases h

/-- C4 (amended): for every input batch with all values in `[0,1]` that
contains at least two distinct values, and every step size epsilon, the
adversarial sample generator returns exactly
`clamp(input + epsilon * sign(gradient), 0, 1)` elementwise over the batch. -/
theorem C4_fgsm_returns_clamped_perturbation
    (sample sample_grad : List ℚ) (epsilon : ℚ)
    (hrange : ∀ x ∈ sample, 0 ≤ x ∧ x ≤ 1)
    (hdistinct : ∃ x ∈ sample, ∃ y ∈ sample, x ≠ y) :
    get_fgsm_samples sample epsilon sample_grad =
      Except.ok (List.zipWith (fun s g => clamp01 (s + epsilon * qsign g))
        sample sample_grad) := by
  rcases hdistinct with ⟨x, hx, y, hy, hxy⟩
  rcases tmin_isSome_of_mem sample x hx with ⟨mn, hmn⟩
  rcases tmax_isSome_of_mem sample x hx with ⟨mx, hmx⟩
  have h0 : 0 ≤ mn := (hrange mn (tmin_mem sample mn hmn)).1
  have h1 : mx ≤ 1 := (hrange mx (tmax_mem sample mx hmx)).2
  have hlt : mn < mx := by
    rcases lt_or_gt_of_ne hxy with h | h
    · exact lt_of_le_of_lt (tmin_le sample mn hmn x hx)
        (lt_of_lt_of_le h (tmax_ge sample mx hmx y hy))
    · exact lt_of_le_of_lt (tmin_le sample mn hmn y hy)
        (lt_of_lt_of_le h (tmax_ge sample mx hmx x hx))
  exact get_fgsm_samples_ok sample sample_grad epsilon mn mx hmn hmx ⟨h0, hlt, h1⟩

theorem C4_witness :
    get_fgsm_samples [0, 1] 1 [1, -1] =
      Except.ok (List.zipWith (fun s g => clamp01 (s + 1 * qsign g)) [0, 1] [1, -1]) :=
  C4_fgsm_returns_clamped_perturbation [0, 1] [1, -1] 1
    (by simp) ⟨0, by simp, 1, by simp, zero_ne_one⟩

/-- C5: for every input batch with all values in `[0,1]` and every epsilon in
`(0,1]`, every element of the generator's output lies in `[0,1]` and differs
from the corresponding input element by at most epsilon in absolute value. -/
theorem C5_fgsm_output_bounds
    (sample sample_grad out : List ℚ) (epsilon : ℚ) (i : ℕ)
    (hrange : ∀ x ∈ sample, 0 ≤ x ∧ x ≤ 1)
    (heps : 0 < epsilon ∧ epsilon ≤ 1)
    (hok : get_fgsm_samples sample epsilon sample_grad = Except.ok out)
    (hi : i < out.length) (hs : i < sample.length) :
    (0 ≤ out[i] ∧ out[i] ≤ 1) ∧ |out[i] - sample[i]| ≤ epsilon := by
  have hne : sample ≠ [] := by
    intro h
    rw [h] at hs
    exact absurd hs (by simp)
  rcases List.exists_mem_of_ne_nil sample hne with ⟨x0, hx0⟩
  rcases tmin_isSome_of_mem sample x0 hx0 with ⟨mn, hmn⟩
  rcases tmax_isSome_of_mem sample x0 hx0 with ⟨mx, hmx⟩
  have hout : out = List.zipWith (fun s g => clamp01 (s + epsilon * qsign g))
      sample sample_grad := by
    by_cases hc : 0 ≤ mn ∧ mn < mx ∧ mx ≤ 1
    · rw [get_fgsm_samples_ok sample sample_grad epsilon mn mx hmn hmx hc] at hok
      exact (Except.ok.inj hok).symm
    · rw [get_fgsm_samples_error sample sample_grad epsilon mn mx hmn hmx hc] at hok
      cases hok
  subst hout
  have hg : i < sample_grad.length := by
    rw [List.length_zipWith] at hi
    exact lt_of_lt_of_le hi (min_le_right _ _)
  have hval : (List.zipWith (fun s g => clamp01 (s + epsilon * qsign g))
      sample sample_grad)[i] = clamp01 (sample[i] + epsilon * qsign sample_grad[i]) :=
    List.getElem_zipWith
  rw [hval]
  have hsr := hrange sample[i] (List.getElem_mem hs)
  refine ⟨⟨clamp01_nonneg _, clamp01_le_one _⟩, ?_⟩
  exact abs_clamp01_sub_le sample[i] (epsilon * qsign sample_grad[i]) epsilon
    hsr.1 hsr.2 (abs_mul_qsign_le epsilon sample_grad[i] (le_of_lt heps.1))

theorem C5_witness :
    (0 ≤ (([1, 0] : List ℚ))[0] ∧ (([1, 0] : List ℚ))[0] ≤ 1) ∧
      |(([1, 0] : List ℚ))[0] - (([0, 1] : List ℚ))[0]| ≤ 1 :=
  C5_fgsm_output_bounds [0, 1] [1, -1] [1, 0] 1 0
    (by simp) (by simp)
    (by norm_num [get_fgsm_samples, tmin, tmax, clamp01, qsign, min_def, max_def])
    (by decide) (by decide)

/-- C6: for every input batch containing a value strictly below 0 or strictly
above 1, the generator fails with an error reporting the observed minimum and
maximum of the batch. -/
theorem C6_out_of_range_reports_extrema
    (sample sample_grad : List ℚ) (epsilon : ℚ) (x mn mx : ℚ)
    (hx : x ∈ sample) (hbad : x < 0 ∨ 1 < x)
    (hmn : tmin sample = some mn) (hmx : tmax sample = some mx) :
    mn ∈ sample ∧ mx ∈ sample ∧ (∀ y ∈ sample, mn ≤ y ∧ y ≤ mx) ∧
    get_fgsm_samples sample epsilon sample_grad =
      Except.error (FgsmError.rangeError mn mx) := by
  refine ⟨tmin_mem sample mn hmn, tmax_mem sample mx hmx,
    fun y hy => ⟨tmin_le sample mn hmn y hy, tmax_ge sample mx hmx y hy⟩, ?_⟩
  apply get_fgsm_samples_error sample sample_grad epsilon mn mx hmn hmx
  rintro ⟨h0, _, h1⟩
  rcases hbad with h | h
  · exact absurd (le_trans h0 (tmin_le sample mn hmn x hx)) (not_le.mpr h)
  · exact absurd (le_trans (tmax_ge sample mx hmx x hx) h1) (not_le.mpr h)

theorem C6_witness :
    (0 : ℚ) ∈ [2, 0] ∧ (2 : ℚ) ∈ [2, 0] ∧
      (∀ y ∈ ([2, 0] : List ℚ), 0 ≤ y ∧ y ≤ 2) ∧
      get_fgsm_samples [2, 0] 1 [1, 1] = Except.error (FgsmError.rangeError 0 2) :=
  C6_out_of_range_reports_extrema [2, 0] [1, 1] 1 2 0 2
    (by decide) (Or.inr (by decide)) (by decide) (by decide)

/-- C10: every input batch whose elements are all equal (in particular the
all-zeros and all-ones batches, which lie in `[0,1]`) makes the generator
raise `ValueError` instead of returning a perturbed batch, because the check
at line 156 requires `min < max` strictly. -/
theorem C10_constant_batch_raises
    (sample sample_grad : List ℚ) (epsilon : ℚ) (c : ℚ)
    (hc : c ∈ sample) (hconst : ∀ x ∈ sample, x = c) :
    get_fgsm_samples sample epsilon sample_grad =
      Except.error (FgsmError.rangeError c c) := by
  rcases tmin_isSome_of_mem sample c hc with ⟨mn, hmn⟩
  rcases tmax_isSome_of_mem sample c hc with ⟨mx, hmx⟩
  have hmn_c : mn = c := hconst mn (tmin_mem sample mn hmn)
  have hmx_c : mx = c := hconst mx (tmax_mem sample mx hmx)
  rw [hmn_c] at hmn
  rw [hmx_c] at hmx
  apply get_fgsm_samples_error sample sample_grad epsilon c c hmn hmx
  rintro ⟨_, h2, _⟩
  exact lt_irrefl c h2

theorem C10_witness :
    get_fgsm_samples [0, 0] 1 [1, 1] = Except.error (FgsmError.rangeError 0 0) :=
  C10_constant_batch_raises [0, 0] [1, 1] 1 0 (by decide) (by decide)

/-! ## Hyperparameter validation: `_validate_parameters` (lines 170-206) -/

/-- Which hyperparameter the `ValueError` raised by `_validate_parameters`
complains about. -/
inductive HPError where
  | badLearningRate
  | badWeightDecay
  | badEpochs
  | badEpsilon
  | badLogInterval
  deriving DecidableEq

/-- Embedding of `_BaseAdversarialTraining._validate_parameters`
(adversarial_training.py lines 170-206): the five checks run in source
order and the first failing one raises. -/
def validate_parameters (lr weight_decay : ℚ) (epochs : ℤ) (epsilon : ℚ)
    (log_interval : ℤ) : Except HPError Unit :=
  if ¬ lr > 0 then Except.error HPError.badLearningRate
  else if ¬ weight_decay ≥ 0 then Except.error HPError.badWeightDecay
  else if ¬ epochs > 0 then Except.error HPError.badEpochs
  else if ¬ (0 < epsilon ∧ epsilon ≤ 1) then Except.error HPError.badEpsilon
  else if ¬ log_interval > 0 then Except.error HPError.badLogInterval
  else Except.ok ()

/-! ## Output-count inference: `BaseModule._decide_n_outputs` (_base.py lines 38-60) -/

/-- A target tensor of one batch: rank-1 (`target.size()` has length 1) or
rank-2 with its rows. -/
inductive Target where
  | r1 (vals : List ℚ)
  | r2 (rows : List (List ℚ))
  deriving DecidableEq

/-- What `_decide_n_outputs` reads off a `DataLoader`: the optional
`dataset.classes` attribute (only its length is used) and the target tensor
of each batch in iteration order. -/
structure TrainLoader where
  numClasses : Option ℕ
  targets : List Target
  deriving DecidableEq

/-- Flattening a target tensor, as `torch.unique(torch.cat(labels))` sees
its values. -/
def Target.flat : Target → List ℚ
  | Target.r1 vals => vals
  | Target.r2 rows => rows.flatten

/-- Embedding of `BaseModule._decide_n_outputs(train_loader, is_classification)`
(_base.py lines 38-60).  Classification: `len(dataset.classes)` when the
attribute exists, else the number of distinct label values across one full
pass.  Regression: from the first batch only, 1 when the target is rank-1,
else its trailing dimension. -/
def decide_n_outputs (train_loader : TrainLoader) (is_classification : Bool) : ℕ :=
  if is_classification then
    match train_loader.numClasses with
    | some n => n
    | none => ((train_loader.targets.map Target.flat).flatten.dedup).length
  else
    match train_loader.targets with
    | [] => 0
    | t :: _ =>
      match t with
      | Target.r1 _ => 1
      | Target.r2 rows => (rows.headD []).length

/-! ## Parallel training coordinator (lines 86-146 and 277-294 / 415-431)

`_parallel_fit_per_epoch` runs one full epoch of clean+adversarial torch
training for one estimator and returns it; the actual gradient-descent work
happens inside the caller-supplied estimator (an external collaborator per
the spec), so it is abstracted here as a function `trainOne idx estimator`.
`joblib.Parallel` over `delayed(...)(… idx, estimator …) for idx, estimator
in enumerate(estimators)` collects results in dispatch order, which is the
enumeration order. -/

/-- One epoch's dispatch: `parallel(delayed(_parallel_fit_per_epoch)(..., idx,
estimator, ...) for idx, estimator in enumerate(estimators))`, with `idx0`
the index of the first estimator of the suffix being dispatched. -/
def parallel_fit_all {E : Type} (trainOne : ℕ → E → E) : ℕ → List E → List E
  | _, [] => []
  | idx0, e :: es => trainOne idx0 e :: parallel_fit_all trainOne (idx0 + 1) es

theorem parallel_fit_all_length {E : Type} (trainOne : ℕ → E → E) :
    ∀ (idx0 : ℕ) (ests : List E),
      (parallel_fit_all trainOne idx0 ests).length = ests.length := by
  intro idx0 ests
  induction ests generalizing idx0 with
  | nil => rfl
  | cons e es ih => simp [parallel_fit_all, ih]

theorem parallel_fit_all_getElem {E : Type} (trainOne : ℕ → E → E) :
    ∀ (ests : List E) (idx0 i : ℕ),
      (parallel_fit_all trainOne idx0 ests)[i]? = (ests[i]?).map (trainOne (idx0 + i)) := by
  intro ests
  induction ests with
  | nil => intro idx0 i; simp [parallel_fit_all]
  | cons e es ih =>
    intro idx0 i
    cases i with
    | zero => simp [parallel_fit_all]
    | succ n =>
      simp only [parallel_fit_all, List.getElem?_cons_succ]
      rw [ih (idx0 + 1) n]
      have harith : idx0 + 1 + n = idx0 + (n + 1) := by omega
      rw [harith]

/-- C9: each per-epoch dispatch of the parallel training coordinator returns
a list of the same length as its input whose element at index `i` is the
trained version of the input estimator at index `i`. -/
theorem C9_parallel_dispatch_preserves_order {E : Type} (trainOne : ℕ → E → E)
    (ests : List E) (i : ℕ) (e : E) (hi : ests[i]? = some e) :
    (parallel_fit_all trainOne 0 ests).length = ests.length ∧
    (parallel_fit_all trainOne 0 ests)[i]? = some (trainOne i e) := by
  refine ⟨parallel_fit_all_length trainOne 0 ests, ?_⟩
  rw [parallel_fit_all_getElem trainOne ests 0 i, hi]
  simp

theorem C9_witness :
    (parallel_fit_all (fun i e => 10 * e + i) 0 [7, 8]).length = ([7, 8] : List ℕ).length ∧
    (parallel_fit_all (fun i e => 10 * e + i) 0 [7, 8])[1]? = some (10 * 8 + 1) :=
  C9_parallel_dispatch_preserves_order (fun i e => 10 * e + i) [7, 8] 1 8 (by decide)

/-! ## The `fit` training loops (classifier lines 234-325, regressor 372-459)

The estimator type `E`, the estimator constructor (`self._make_estimator`),
the per-epoch torch training of one estimator
(`_parallel_fit_per_epoch` minus its orchestration) and the validation-metric
computation over `test_loader` are external collaborators (spec section 1);
they enter as the parameters `make_estimator`, `trainOne` and
`evalAcc`/`evalMse`.  `evalAcc = none` models `test_loader=None`.
`io.save` is modelled by recording the committed estimator set at each
invocation, in order, in the `saves` field. -/

/-- Loop state of `AdversarialTrainingClassifier.fit`: the working estimator
list, `best_acc`, the committed set `self.estimators_`, and the record of
`io.save` calls. -/
structure ClaState (E : Type) where
  estimators : List E
  best_acc : ℚ
  committed : List E
  saves : List (List E)
  deriving DecidableEq

/-- One iteration of the classifier epoch loop (lines 275-320): parallel
dispatch, then — when a test loader is present — accuracy evaluation and the
strict-improvement snapshot update `if acc > best_acc` (line 311). -/
def cla_epoch_step {E : Type} (trainOne : ℕ → ℕ → E → E)
    (evalAcc : Option (List E → ℚ)) (save_model : Bool) (epoch : ℕ)
    (s : ClaState E) : ClaState E :=
  let rets := parallel_fit_all (trainOne epoch) 0 s.estimators
  match evalAcc with
  | none => { s with estimators := rets }
  | some accOf =>
    let acc := accOf rets
    if acc > s.best_acc then
      { estimators := rets, best_acc := acc, committed := rets,
        saves := if save_model then s.saves ++ [rets] else s.saves }
    else
      { s with estimators := rets }

/-- What `AdversarialTrainingClassifier.fit` leaves behind on success. -/
structure ClaFitRet (E : Type) where
  n_outputs : ℕ
  committed : List E
  best_acc : ℚ
  saves : List (List E)
  deriving DecidableEq

/-- Outcome of a classifier `fit` call, together with how many base
estimators had been constructed by the time it returned. -/
structure ClaFitOutcome (E : Type) where
  constructed : ℕ
  result : Except HPError (ClaFitRet E)
  deriving DecidableEq

/-- Embedding of `AdversarialTrainingClassifier.fit` (lines 234-325), keeping
the source's statement order: first the estimator-construction loop
(lines 247-249), then `_validate_parameters` (line 250), then
`_decide_n_outputs(train_loader, True)` (line 255), then the epoch loop, and
finally the unconditional `self.estimators_` reset to the last epoch's
trained set plus the save-when-no-test-loader (lines 322-325). -/
def cla_fit {E : Type} (n_estimators : ℕ) (make_estimator : ℕ → E)
    (trainOne : ℕ → ℕ → E → E) (train_loader : TrainLoader)
    (lr weight_decay : ℚ) (epochs : ℤ) (epsilon : ℚ) (log_interval : ℤ)
    (evalAcc : Option (List E → ℚ)) (save_model : Bool) : ClaFitOutcome E :=
  let estimators := (List.range n_estimators).map make_estimator
  match validate_parameters lr weight_decay epochs epsilon log_interval with
  | Except.error e => { constructed := n_estimators, result := Except.error e }
  | Except.ok _ =>
    let n_outputs := decide_n_outputs train_loader true
    let init : ClaState E :=
      { estimators := estimators, best_acc := 0, committed := [], saves := [] }
    let final := (List.range epochs.toNat).foldl
      (fun s epoch => cla_epoch_step trainOne evalAcc save_model epoch s) init
    let saves := if save_model && evalAcc.isNone
      then final.saves ++ [final.estimators] else final.saves
    { constructed := n_estimators,
      result := Except.ok
        { n_outputs := n_outputs, committed := final.estimators,
          best_acc := final.best_acc, saves := saves } }

/-- Loop state of `AdversarialTrainingRegressor.fit`; `best_mse` lives in
`WithTop ℚ` because Python initialises it to `float("inf")` (line 397). -/
structure RegState (E : Type) where
  estimators : List E
  best_mse : WithTop ℚ
  committed : List E
  saves : List (List E)
  deriving DecidableEq

/-- One iteration of the regressor epoch loop (lines 413-454): parallel
dispatch, then — when a test loader is present — MSE evaluation and the
strict-improvement snapshot update `if mse < best_mse` (line 445). -/
def reg_epoch_step {E : Type} (trainOne : ℕ → ℕ → E → E)
    (evalMse : Option (List E → ℚ)) (save_model : Bool) (epoch : ℕ)
    (s : RegState E) : RegState E :=
  let rets := parallel_fit_all (trainOne epoch) 0 s.estimators
  match evalMse with
  | none => { s with estimators := rets }
  | some mseOf =>
    let mse := mseOf rets
    if (mse : WithTop ℚ) < s.best_mse then
      { estimators := rets, best_mse := (mse : WithTop ℚ), committed := rets,
        saves := if save_model then s.saves ++ [rets] else s.saves }
    else
      { s with estimators := rets }

/-- What `AdversarialTrainingRegressor.fit` leaves behind on success. -/
structure RegFitRet (E : Type) where
  n_outputs : ℕ
  committed : List E
  best_mse : WithTop ℚ
  saves : List (List E)
  deriving DecidableEq

/-- Outcome of a regressor `fit` call, together with how many base
estimators had been constructed by the time it returned. -/
structure RegFitOutcome (E : Type) where
  constructed : ℕ
  result : Except HPError (RegFitRet E)
  deriving DecidableEq

/-- Embedding of `AdversarialTrainingRegressor.fit` (lines 372-459), keeping
the source's statement order.  Note line 393 passes `True` (the
classification flag) to `_decide_n_outputs`, exactly as the source does. -/
def reg_fit {E : Type} (n_estimators : ℕ) (make_estimator : ℕ → E)
    (trainOne : ℕ → ℕ → E → E) (train_loader : TrainLoader)
    (lr weight_decay : ℚ) (epochs : ℤ) (epsilon : ℚ) (log_interval : ℤ)
    (evalMse : Option (List E → ℚ)) (save_model : Bool) : RegFitOutcome E :=
  let estimators := (List.range n_estimators).map make_estimator
  match validate_parameters lr weight_decay epochs epsilon log_interval with
  | Except.error e => { constructed := n_estimators, result := Except.error e }
  | Except.ok _ =>
    let n_outputs := decide_n_outputs train_loader true
    let init : RegState E :=
      { estimators := estimators, best_mse := ⊤, committed := [], saves := [] }
    let final := (List.range epochs.toNat).foldl
      (fun s epoch => reg_epoch_step trainOne evalMse save_model epoch s) init
    let saves := if save_model && evalMse.isNone
      then final.saves ++ [final.estimators] else final.saves
    { constructed := n_estimators,
      result := Except.ok
        { n_outputs := n_outputs, committed := final.estimators,
          best_mse := final.best_mse, saves := saves } }

/-- A training iterable with no `classes` attribute whose single target batch
is rank-1 with three distinct values — a regression loader under the claim's
reading, a three-class label set under the classification inference path. -/
def tl_labels : TrainLoader :=
  { numClasses := none, targets := [Target.r1 [0, 2, 5]] }

/-- C2: the regressor's `fit` does not use the regression rule (trailing
target dimension, 1 for a rank-1 target): line 393 passes `True` to
`_decide_n_outputs`, so a rank-1 target batch with the three distinct values
`[0, 2, 5]` yields `n_outputs = 3` (distinct-label count) where the claim
requires 1. -/
theorem C2_regressor_n_outputs_uses_classification_path :
    ((reg_fit 1 (fun _ => (0 : ℕ)) (fun _ _ est => est) tl_labels
        1 0 1 1 1 none true).result.toOption.map RegFitRet.n_outputs) = some 3 ∧
    decide_n_outputs tl_labels true = 3 ∧
    decide_n_outputs tl_labels false = 1 := by decide

/-- C3 fails as stated: with an invalid learning rate (`lr = 0`) the
classifier `fit` does fail with the learning-rate error, but only after
having constructed all of its base estimators — the construction loop at
lines 247-249 precedes the `_validate_parameters` call at line 250. -/
theorem C3_counterexample_estimators_built_first :
    (cla_fit 2 (fun _ => (0 : ℕ)) (fun _ _ est => est) tl_labels
        0 0 1 1 1 none true).result = Except.error HPError.badLearningRate ∧
    (cla_fit 2 (fun _ => (0 : ℕ)) (fun _ _ est => est) tl_labels
        0 0 1 1 1 none true).constructed = 2 ∧
    (2 : ℕ) ≠ 0 := by decide

/-- C3 (amended): hyperparameter validation runs after the base estimators
are constructed but before anything else: on any invalid hyperparameter,
both `fit` variants fail with exactly the validation error, with all
`n_estimators` base estimators constructed and with the training loop — and
hence any optimizer construction, which happens only inside
`_parallel_fit_per_epoch` — never entered. -/
theorem C3_validation_precedes_training {E : Type} (n_estimators : ℕ)
    (make_estimator : ℕ → E) (trainOne : ℕ → ℕ → E → E)
    (train_loader : TrainLoader) (lr weight_decay : ℚ) (epochs : ℤ)
    (epsilon : ℚ) (log_interval : ℤ) (evalAcc evalMse : Option (List E → ℚ))
    (save_model : Bool) (e : HPError)
    (hbad : validate_parameters lr weight_decay epochs epsilon log_interval
      = Except.error e) :
    cla_fit n_estimators make_estimator trainOne train_loader lr weight_decay
        epochs epsilon log_interval evalAcc save_model
      = { constructed := n_estimators, result := Except.error e } ∧
    reg_fit n_estimators make_estimator trainOne train_loader lr weight_decay
        epochs epsilon log_interval evalMse save_model
      = { constructed := n_estimators, result := Except.error e } := by
  constructor
  · unfold cla_fit
    rw [hbad]
  · unfold reg_fit
    rw [hbad]

theorem C3_witness :
    cla_fit 3 (fun _ => (0 : ℕ)) (fun _ _ est => est) tl_labels
        0 0 1 1 1 none true
      = { constructed := 3, result := Except.error HPError.badLearningRate } ∧
    reg_fit 3 (fun _ => (0 : ℕ)) (fun _ _ est => est) tl_labels
        0 0 1 1 1 none true
      = { constructed := 3, result := Except.error HPError.badLearningRate } :=
  C3_validation_precedes_training 3 (fun _ => (0 : ℕ)) (fun _ _ est => est)
    tl_labels 0 0 1 1 1 none none true HPError.badLearningRate (by decide)

/-- The validation metric of the C1 scenario: the estimator set produced by
epoch 1 scores 60 % accuracy, the set produced by epoch 2 scores 55 %. -/
def c1_eval : List ℕ → ℚ :=
  fun ests => if ests = [1] then 60 else if ests = [2] then 55 else 0

/-- C1: in the two-epoch scenario with validation accuracies 60 % then 55 %,
the snapshot logic saves exactly once (after epoch 1, recording the epoch-1
set `[1]`) and tracks `best_acc = 60`, but the unconditional
`self.estimators_` reset after the epoch loop (lines 322-323) commits the
epoch-2 set `[2]`, not the best-scoring epoch-1 set `[1]` the claim
promises. -/
theorem C1_final_reset_discards_best_set :
    c1_eval [1] = 60 ∧ c1_eval [2] = 55 ∧
    (cla_fit 1 (fun _ => (0 : ℕ)) (fun _ _ est => est + 1) tl_labels
        1 0 2 1 1 (some c1_eval) true).result
      = Except.ok { n_outputs := 3, committed := [2], best_acc := 60,
                    saves := [[1]] } ∧
    ([2] : List ℕ) ≠ [1] := by decide

theorem cla_epoch_step_best_acc_mono {E : Type} (trainOne : ℕ → ℕ → E → E)
    (evalAcc : Option (List E → ℚ)) (save_model : Bool) (epoch : ℕ)
    (s : ClaState E) :
    s.best_acc ≤ (cla_epoch_step trainOne evalAcc save_model epoch s).best_acc := by
  unfold cla_epoch_step
  cases evalAcc with
  | none => exact le_refl _
  | some accOf =>
    dsimp only
    split_ifs with h h2
    · simpa using le_of_lt h
    · simpa using le_of_lt h
    · simp

theorem reg_epoch_step_best_mse_anti {E : Type} (trainOne : ℕ → ℕ → E → E)
    (evalMse : Option (List E → ℚ)) (save_model : Bool) (epoch : ℕ)
    (s : RegState E) :
    (reg_epoch_step trainOne evalMse save_model epoch s).best_mse ≤ s.best_mse := by
  unfold reg_epoch_step
  cases evalMse with
  | none => exact le_refl _
  | some mseOf =>
    dsimp only
    split_ifs with h h2
    · simpa using le_of_lt h
    · simpa using le_of_lt h
    · simp

/-- C7: within one `fit` call the tracked best metric is monotone across the
epoch loop — the classifier's `best_acc` never decreases and the regressor's
`best_mse` never increases, over any sequence of epochs. -/
theorem C7_best_metric_monotone {E : Type} (trainOne : ℕ → ℕ → E → E)
    (evalAcc evalMse : Option (List E → ℚ)) (save_model : Bool)
    (epochs_list : List ℕ) (s : ClaState E) (r : RegState E) :
    s.best_acc ≤ (epochs_list.foldl
        (fun st ep => cla_epoch_step trainOne evalAcc save_model ep st) s).best_acc ∧
    (epochs_list.foldl
        (fun st ep => reg_epoch_step trainOne evalMse save_model ep st) r).best_mse
      ≤ r.best_mse := by
  constructor
  · induction epochs_list generalizing s with
    | nil => exact le_refl _
    | cons ep eps ih =>
      exact le_trans
        (cla_epoch_step_best_acc_mono trainOne evalAcc save_model ep s) (ih _)
  · induction epochs_list generalizing r with
    | nil => exact le_refl _
    | cons ep eps ih =>
      exact le_trans (ih _)
        (reg_epoch_step_best_mse_anti trainOne evalMse save_model ep r)

/-! ## Classification aggregation: `AdversarialTrainingClassifier.forward`
(lines 220-228) and the `_forward` helper inside `fit` (lines 262-269)

Both compute, row by row, `proba += F.softmax(estimator(x), dim=1) /
self.n_estimators` starting from a zero row of width `n_outputs`.  Softmax
needs the real exponential, so this part of the embedding lives in `ℝ`. -/

/-- Model of `F.softmax(z, dim=1)` on one row of logits. -/
noncomputable def softmax (logits : List ℝ) : List ℝ :=
  logits.map (fun z => Real.exp z / (logits.map Real.exp).sum)

/-- Elementwise tensor addition of two rows. -/
def add_vec (a b : List ℝ) : List ℝ := List.zipWith (fun x y => x + y) a b

/-- One output row of the classifier's aggregation: starting from
`torch.zeros(_, n_outputs)`, add `softmax(estimator(x)) / n_estimators` for
each estimator output in turn. -/
noncomputable def cla_forward_row (outputs : List (List ℝ))
    (n_estimators n_outputs : ℕ) : List ℝ :=
  outputs.foldl
    (fun proba o => add_vec proba ((softmax o).map (fun p => p / (n_estimators : ℝ))))
    (List.replicate n_outputs 0)

/-- The batch-level forward pass of `AdversarialTrainingClassifier`:
each input row is aggregated independently over all estimators. -/
noncomputable def cla_forward {α : Type} (estimators : List (α → List ℝ))
    (n_estimators n_outputs : ℕ) (batch : List α) : List (List ℝ) :=
  batch.map (fun x =>
    cla_forward_row (estimators.map (fun est => est x)) n_estimators n_outputs)

theorem sum_map_div (l : List ℝ) (f : ℝ → ℝ) (c : ℝ) :
    (l.map (fun z => f z / c)).sum = (l.map f).sum / c := by
  induction l with
  | nil => simp
  | cons x xs ih => simp [ih, add_div]

theorem softmax_length (logits : List ℝ) : (softmax logits).length = logits.length := by
  simp [softmax]

theorem softmax_sum (logits : List ℝ) (h : logits ≠ []) : (softmax logits).sum = 1 := by
  unfold softmax
  rw [sum_map_div]
  apply div_self
  apply ne_of_gt
  apply List.sum_pos
  · intro a ha
    rcases List.mem_map.mp ha with ⟨z, _, rfl⟩
    exact Real.exp_pos z
  · simpa using h

theorem add_vec_length (a b : List ℝ) (hab : a.length = b.length) :
    (add_vec a b).length = a.length := by
  simp [add_vec, hab]

theorem add_vec_sum (a : List ℝ) : ∀ (b : List ℝ), a.length = b.length →
    (add_vec a b).sum = a.sum + b.sum := by
  induction a with
  | nil =>
    intro b hab
    cases b with
    | nil => simp [add_vec]
    | cons y ys => cases hab
  | cons x xs ih =>
    intro b hab
    cases b with
    | nil => cases hab
    | cons y ys =>
      have h' : xs.length = ys.length := by simpa using hab
      simp only [add_vec, List.zipWith_cons_cons, List.sum_cons]
      rw [show List.zipWith (fun x y => x + y) xs ys = add_vec xs ys from rfl, ih ys h']
      ring

theorem cla_forward_row_sum_aux (n : ℕ) :
    ∀ (outputs : List (List ℝ)) (acc : List ℝ),
      (∀ o ∈ outputs, o ≠ [] ∧ o.length = acc.length) →
      (outputs.foldl
          (fun proba o => add_vec proba ((softmax o).map (fun p => p / (n : ℝ))))
          acc).sum
        = acc.sum + outputs.length * (1 / (n : ℝ)) := by
  intro outputs
  induction outputs with
  | nil => intro acc _; simp
  | cons o os ih =>
    intro acc hlen
    have ho := hlen o (List.mem_cons_self o os)
    have hvlen : ((softmax o).map (fun p => p / (n : ℝ))).length = acc.length := by
      rw [List.length_map, softmax_length]
      exact ho.2
    have hstep_sum : (add_vec acc ((softmax o).map (fun p => p / (n : ℝ)))).sum
        = acc.sum + 1 / (n : ℝ) := by
      rw [add_vec_sum acc _ hvlen.symm]
      rw [show ((softmax o).map (fun p => p / (n : ℝ))).sum
          = ((softmax o).map id).sum / (n : ℝ) from sum_map_div (softmax o) id (n : ℝ)]
      rw [List.map_id, softmax_sum o ho.1]
    have hstep_len : (add_vec acc ((softmax o).map (fun p => p / (n : ℝ)))).length
        = acc.length := add_vec_length _ _ hvlen.symm
    simp only [List.foldl_cons, List.length_cons]
    rw [ih _ (fun o' ho' => by rw [hstep_len]; exact hlen o' (List.mem_cons_of_mem o ho'))]
    rw [hstep_sum]
    push_cast
    ring

/-- C8: every row of the classification ensemble's aggregated output — the
average of the per-estimator softmax distributions over `n_estimators`
estimators (`n_estimators` coinciding with the committed estimator count, as
`fit` guarantees) — sums to 1 across its `n_outputs` columns. -/
theorem C8_forward_rows_sum_to_one {α : Type} (estimators : List (α → List ℝ))
    (n_estimators n_outputs : ℕ) (batch : List α) (row : List ℝ)
    (hn : n_estimators = estimators.length)
    (hne : estimators ≠ [])
    (hno : 0 < n_outputs)
    (hlen : ∀ est ∈ estimators, ∀ x ∈ batch, (est x).length = n_outputs)
    (hrow : row ∈ cla_forward estimators n_estimators n_outputs batch) :
    row.sum = 1 := by
  rcases List.mem_map.mp hrow with ⟨x, hx, rfl⟩
  unfold cla_forward_row
  rw [cla_forward_row_sum_aux n_estimators (estimators.map (fun est => est x))
      (List.replicate n_outputs 0) ?hyp]
  case hyp =>
    intro o ho
    rcases List.mem_map.mp ho with ⟨est, hest, rfl⟩
    have hl : (est x).length = n_outputs := hlen est hest x hx
    constructor
    · intro hnil
      rw [hnil] at hl
      simp at hl
      omega
    · simp [hl]
  · have hlen0 : (estimators.map (fun est => est x)).length = n_estimators := by
      rw [List.length_map, hn]
    rw [hlen0]
    have hn0 : (n_estimators : ℝ) ≠ 0 := by
      rw [hn]
      exact_mod_cast (List.length_pos.mpr hne).ne'
    simp [List.sum_replicate]
    field_simp

theorem C8_witness :
    (cla_forward_row [[(0 : ℝ), 0]] 1 2).sum = 1 :=
  C8_forward_rows_sum_to_one ([fun _ => [(0 : ℝ), 0]] : List (Unit → List ℝ))
    1 2 [()] (cla_forward_row [[(0 : ℝ), 0]] 1 2)
    rfl (by simp) (by decide) (by simp) (by simp [cla_forward])
